import Mathlib

set_option maxRecDepth 4000
set_option maxHeartbeats 1000000

/-!
Shallow embedding of the PlexFileRenamer core (Go) and proofs about it.

Strings are handled as lists of characters (`String.data`); every function is
structurally recursive so that concrete instances reduce inside the kernel.
The embedding fixes the Unix build of the Go toolchain: `filepath.Separator`
is `/`, and `filepath.ToSlash` / `filepath.FromSlash` are the identity.
-/

namespace PlexRenamer

/-- Character-level flat map: applies `f` to every character and concatenates
the results. Used to reason about single-character `strings.ReplaceAll`. -/
def expand (f : Char → List Char) : List Char → List Char
  | [] => []
  | c :: rest => f c ++ expand f rest

/-- Left-to-right non-overlapping replacement with explicit fuel; mirrors
`strings.ReplaceAll` for a non-empty pattern once the fuel is at least the
length of the text. -/
def replaceAllAux (pat rep : List Char) : Nat → List Char → List Char
  | 0, s => s
  | _ + 1, [] => []
  | fuel + 1, c :: rest =>
    if pat.isPrefixOf (c :: rest) then
      rep ++ replaceAllAux pat rep fuel (List.drop pat.length (c :: rest))
    else
      c :: replaceAllAux pat rep fuel rest

/-- Models `strings.ReplaceAll` on character lists. -/
def replaceAllL (s pat rep : List Char) : List Char :=
  replaceAllAux pat rep s.length s

/-- Models `strings.ReplaceAll` (Go, Unix build). -/
def goReplaceAll (s pat rep : String) : String :=
  ⟨replaceAllL s.data pat.data rep.data⟩

/-- Models `unicode.IsControl` (Go): the Cc category, U+0000..U+001F and U+007F..U+009F. -/
def isGoControl (c : Char) : Bool :=
  c.toNat < 0x20 || (0x7F ≤ c.toNat && c.toNat ≤ 0x9F)

/-- Models `unicode.IsSpace` (Go): the White_Space property. -/
def isGoSpace (c : Char) : Bool :=
  c = ' ' || (c = '\t' || (c = '\n' || (c = Char.ofNat 0x0B || (c = Char.ofNat 0x0C ||
  (c = '\r' || (c = Char.ofNat 0x85 || (c = Char.ofNat 0xA0 || (c = Char.ofNat 0x1680 ||
  ((0x2000 ≤ c.toNat && c.toNat ≤ 0x200A) ||
  (c = Char.ofNat 0x2028 || (c = Char.ofNat 0x2029 || (c = Char.ofNat 0x202F ||
  (c = Char.ofNat 0x205F || c = Char.ofNat 0x3000)))))))))))))

/-- The character class matched by `\s` in Go's `regexp` package
(ASCII only: tab, newline, form feed, carriage return, space). -/
def isRegexSpace (c : Char) : Bool :=
  c = '\t' || (c = '\n' || (c = Char.ofNat 0x0C || (c = '\r' || c = ' ')))

/-- Models a `strings.TrimLeftFunc`-style trim from the left. -/
def trimLeftBy (p : Char → Bool) (s : List Char) : List Char :=
  s.dropWhile p

/-- Trim from the right: removes the maximal suffix of characters satisfying
`p` (as `strings.TrimRight` with a character-set cutset does). -/
def trimRightBy (p : Char → Bool) : List Char → List Char
  | [] => []
  | c :: rest =>
    let r := trimRightBy p rest
    if r = [] && p c then [] else c :: r

/-- Models `regexp.MustCompile("\\s+").ReplaceAllString(s, " ")`: every maximal run
of regex whitespace becomes a single space. The flag records whether the
previous character was in such a run. -/
def collapseAux : Bool → List Char → List Char
  | _, [] => []
  | inRun, c :: rest =>
    if isRegexSpace c then
      if inRun then collapseAux true rest else ' ' :: collapseAux true rest
    else c :: collapseAux false rest

/-- The substitution table of `sanitizeFilename`, in source listing order.
Go iterates the map in unspecified order, but no replacement output contains
any other replaced character, so the final result is order-independent. -/
def sanitizeReplacements : List (Char × List Char) :=
  [(':', [' ', '-']), ('/', ['-']), ('\\', ['-']), ('*', []), ('?', []),
   ('"', ['\'']), ('<', []), ('>', []), ('|', ['-'])]

/-- Applies a list of single-character replacements in sequence. -/
def applyReplacements : List (Char × List Char) → List Char → List Char
  | [], s => s
  | (c, rep) :: rest, s => applyReplacements rest (replaceAllL s [c] rep)

/-- Models `sanitizeFilename` (formatter.go): replacement table, control-character
strip, trim of trailing spaces and periods, whitespace-run collapse, final
`strings.TrimSpace`. -/
def sanitizeFilename (name : List Char) : List Char :=
  let r1 := applyReplacements sanitizeReplacements name
  let r2 := r1.filter (fun c => !isGoControl c)
  let r3 := trimRightBy (fun c => c = ' ' || c = '.') r2
  let r4 := collapseAux false r3
  trimRightBy isGoSpace (trimLeftBy isGoSpace r4)

/-- String-level wrapper for `sanitizeFilename`. -/
def sanitizeFilenameS (s : String) : String :=
  ⟨sanitizeFilename s.data⟩

/-! Section: Data model (database/plex.go)

Only the fields that flow into the rename-plan compiler and the executor are
carried (titles, years, ordinal indices, file paths, root paths); the purely
presentational columns (sort title, studio, agent, ...) feed no modeled
function. -/

/-- Models `database.MetadataItem` (the fields the planner reads). -/
structure MetadataItem where
  ID : Int
  Title : String
  Year : Option Int
  Index : Option Int
deriving DecidableEq

/-- Models `database.MediaPart`. -/
structure MediaPart where
  File : String
  Size : Int
deriving DecidableEq

/-- Models `database.SectionLocation`. -/
structure SectionLocation where
  ID : Int
  RootPath : String
  Available : Int
deriving DecidableEq

/-- Models `database.MovieInfo`. -/
structure MovieInfo where
  Metadata : MetadataItem
  Files : List MediaPart
deriving DecidableEq

/-- Models `database.EpisodeInfo`. -/
structure EpisodeInfo where
  Metadata : MetadataItem
  Files : List MediaPart
deriving DecidableEq

/-- Models `database.SeasonInfo`. -/
structure SeasonInfo where
  Metadata : MetadataItem
  Episodes : List EpisodeInfo
deriving DecidableEq

/-- Models `database.ShowInfo`. -/
structure ShowInfo where
  Metadata : MetadataItem
  Seasons : List SeasonInfo
deriving DecidableEq

/-- Models `database.SectionTypeMovie`. -/
def SectionTypeMovie : Int := 1

/-- Models `database.SectionTypeShow`. -/
def SectionTypeShow : Int := 2

/-- Models `database.LibrarySection` (the fields the planner reads). -/
structure LibrarySection where
  ID : Int
  Name : String
  SectionType : Int
deriving DecidableEq

/-- Models `database.LibraryContent`. -/
structure LibraryContent where
  Section : LibrarySection
  Locations : List SectionLocation
  Movies : List MovieInfo
  Shows : List ShowInfo
deriving DecidableEq

/-! Section: Name formatting (formatter.go) -/

/-- Models `renamer.DefaultTVFormat`. -/
def DefaultTVFormat : String := "{show}/Season {season}/S{snum}E{enum} - {title}{ext}"

/-- Models `renamer.DefaultMovieFormat`. -/
def DefaultMovieFormat : String := "{title} ({year}){ext}"

/-- Models `renamer.Formatter`. -/
structure Formatter where
  TVFormat : String
  MovieFormat : String
deriving DecidableEq

/-- Models `renamer.NewFormatter`. -/
def NewFormatter (tvFormat movieFormat : String) : Formatter :=
  { TVFormat := if tvFormat = "" then DefaultTVFormat else tvFormat
    MovieFormat := if movieFormat = "" then DefaultMovieFormat else movieFormat }

/-- Models `fmt.Sprintf("%02d", n)`: zero-pad to width 2 (wider values pass through,
including negative ones, exactly as Go's `%02d`). -/
def pad2 (n : Int) : String :=
  if 0 ≤ n ∧ n < 10 then "0" ++ toString n else toString n

/-- Models `Formatter.FormatEpisode` (formatter.go), replacements in source order. -/
def Formatter.FormatEpisode (f : Formatter) (tvShow season : MetadataItem)
    (episode : EpisodeInfo) (ext : String) : String :=
  let r := goReplaceAll f.TVFormat "{show}" (sanitizeFilenameS tvShow.Title)
  let seasonNum : Int := season.Index.getD 0
  let r := goReplaceAll r "{season}" (toString seasonNum)
  let r := goReplaceAll r "{snum}" (pad2 seasonNum)
  let episodeNum : Int := episode.Metadata.Index.getD 0
  let r := goReplaceAll r "{enum}" (pad2 episodeNum)
  let r := goReplaceAll r "{title}" (sanitizeFilenameS episode.Metadata.Title)
  let r := goReplaceAll r "{year}"
    (match tvShow.Year with | some y => toString y | none => "")
  goReplaceAll r "{ext}" ext

/-- Models `Formatter.FormatMovie` (formatter.go). -/
def Formatter.FormatMovie (f : Formatter) (movie : MovieInfo) (ext : String) : String :=
  let r := goReplaceAll f.MovieFormat "{title}" (sanitizeFilenameS movie.Metadata.Title)
  let r := goReplaceAll r "{year}"
    (match movie.Metadata.Year with | some y => toString y | none => "Unknown")
  goReplaceAll r "{ext}" ext

/-- Models `renamer.ApplyPathMapping` (formatter.go). On the Unix build
`filepath.ToSlash` and `filepath.FromSlash` are the identity, so the
normalization steps drop out. -/
def ApplyPathMapping (path srcPre dstPre : String) : String :=
  if srcPre = "" ∨ dstPre = "" then path
  else if srcPre.data.isPrefixOf path.data then
    dstPre ++ ⟨path.data.drop srcPre.data.length⟩
  else path

/-- Helper for `filepath.Ext`: walks the reversed path, accumulating the
characters seen until the last `.` of the final path element (or giving up at
a separator). -/
def extFromRev : List Char → List Char → Option (List Char)
  | [], _ => none
  | c :: rest, acc =>
    if c = '/' then none
    else if c = '.' then some ('.' :: acc)
    else extFromRev rest (c :: acc)

/-- Models `renamer.GetExtension` = `filepath.Ext` (Unix build): everything from the
final element's last dot, inclusive; empty when there is none. -/
def GetExtension (path : String) : String :=
  match extFromRev path.data.reverse [] with
  | some l => ⟨l⟩
  | none => ""

/-! Section: Lexical path cleaning (`path/filepath`, Unix build) -/

/-- Splits on `/` (as `strings.Split(s, "/")` at the character level). -/
def splitSlashAux : List Char → List Char → List (List Char)
  | [], acc => [acc.reverse]
  | c :: rest, acc =>
    if c = '/' then acc.reverse :: splitSlashAux rest []
    else splitSlashAux rest (c :: acc)

/-- Joins elements with `/`. -/
def joinSlash : List (List Char) → List Char
  | [] => []
  | [x] => x
  | x :: y :: rest => x ++ '/' :: joinSlash (y :: rest)

/-- The element loop of `filepath.Clean`: skips empty and `.` elements,
resolves `..` against the output stack (kept reversed in `acc`). -/
def cleanParts (rooted : Bool) : List (List Char) → List (List Char) → List (List Char)
  | [], acc => acc.reverse
  | p :: rest, acc =>
    if p = [] ∨ p = ['.'] then cleanParts rooted rest acc
    else if p = ['.', '.'] then
      match acc with
      | [] => if rooted then cleanParts rooted rest []
              else cleanParts rooted rest [['.', '.']]
      | t :: acc' =>
        if t = ['.', '.'] then cleanParts rooted rest (['.', '.'] :: t :: acc')
        else cleanParts rooted rest acc'
    else cleanParts rooted rest (p :: acc)

/-- Models `filepath.Clean` (Unix build), as the standard lexical algorithm. -/
def goClean (p : String) : String :=
  if p.data = [] then "."
  else
    let rooted := p.data.head? = some '/'
    let out := cleanParts rooted (splitSlashAux p.data []) []
    let body := joinSlash out
    let res : List Char := if rooted then '/' :: body else body
    if res = [] then "." else ⟨res⟩

/-- Models `filepath.Join(a, b)` (Unix build): empty elements are skipped, the rest
joined with `/` and cleaned; all-empty input gives the empty string. -/
def goJoin (a b : String) : String :=
  if a = "" ∧ b = "" then ""
  else if a = "" then goClean b
  else if b = "" then goClean a
  else goClean (a ++ "/" ++ b)

/-- Models `filepath.Dir` (Unix build): `Clean` of the path with the final element
removed. -/
def goDir (p : String) : String :=
  let pre := (p.data.reverse.dropWhile (fun c => c ≠ '/')).reverse
  goClean ⟨pre⟩

/-! Section: Direct backend (renamer/operations.go)

The filesystem is a finite map from paths to byte sizes, as an association
list (later entries shadowed by `setFile` conses).  The outcome of each
fallible syscall is supplied by an `IOEnv` oracle, so theorems quantify over
every possible pattern of I/O failures.  Directory structure and permission
bits are not part of the state: `os.MkdirAll` only succeeds or fails, and the
best-effort `os.Chmod` in `copyFile` touches nothing that is modeled. -/

/-- Models `renamer.OperationMode`, which is a string-backed type in Go. -/
abbrev OperationMode := String

/-- Models `renamer.ModeCopy`. -/
def ModeCopy : OperationMode := "copy"

/-- Models `renamer.ModeMove`. -/
def ModeMove : OperationMode := "move"

/-- Models `renamer.Operation`. -/
structure Operation where
  Source : String
  Destination : String
  Mode : OperationMode
deriving DecidableEq

/-- The error values produced by `Execute`, `copyFile` and `moveFile`,
abstracting the `fmt.Errorf` strings. -/
inductive GoError
  | sourceMissing (path : String)
  | mkdirFailed
  | openFailed
  | createFailed
  | copyFailed
  | verifyStatFailed
  | sizeMismatch
  | removeSrcFailed
  | unknownMode (mode : String)
deriving DecidableEq

/-- Models `renamer.Result` (the `Operation` field is named `Op` here because the Go
field shares its name with its type). -/
structure Result where
  Op : Operation
  Success : Bool
  Skipped : Bool
  Error : Option GoError
  Message : String
deriving DecidableEq

/-- Filesystem state: path to byte size. -/
abbrev FS := List (String × Nat)

/-- Association-list lookup (first match wins). -/
def FS.lookup : FS → String → Option Nat
  | [], _ => none
  | (q, n) :: rest, p => if p = q then some n else FS.lookup rest p

/-- Tests `os.Stat(p)` succeeding, i.e. the path names an existing file. -/
def FS.pathExists (fs : FS) (p : String) : Bool :=
  (fs.lookup p).isSome

/-- Creates or truncates a file to the given size. -/
def FS.setFile (fs : FS) (p : String) (n : Nat) : FS :=
  (p, n) :: fs

/-- Models `os.Remove` on a file. -/
def FS.removeFile (fs : FS) (p : String) : FS :=
  fs.filter (fun e => e.1 ≠ p)

/-- I/O oracle for one operation: whether each fallible syscall succeeds, and
how many bytes actually land on disk. -/
structure IOEnv where
  /-- `os.MkdirAll` on the destination directory succeeds. -/
  mkdirOk : Bool
  /-- `os.Rename` succeeds (same-filesystem move); it can never succeed when
  the source is missing. -/
  renameOk : Bool
  /-- `os.Open` on the source succeeds; it can never succeed when the source
  is missing. -/
  openOk : Bool
  /-- `os.Create` on the destination succeeds. -/
  createOk : Bool
  /-- `io.Copy` reports success. -/
  ioCopyOk : Bool
  /-- Bytes present at the destination after a successful `io.Copy`
  (equal to the source size on a faithful disk). -/
  copiedSize : Nat
  /-- The cleanup `os.Remove` of a partial destination succeeds. -/
  cleanupOk : Bool
  /-- Bytes left in the partial destination when the cleanup fails. -/
  leftoverSize : Nat
  /-- The `os.Remove` of the destination after a size mismatch succeeds
  (its error is ignored by the Go code). -/
  removeDstOk : Bool
  /-- The final `os.Remove` of the source succeeds. -/
  removeSrcOk : Bool
deriving DecidableEq

/-- Models `renamer.copyFile` (operations.go): open source, create destination,
stream-copy (removing the partial destination on copy error), then a
best-effort chmod that touches no modeled state. -/
def copyFile (env : IOEnv) (fs : FS) (src dst : String) : FS × Option GoError :=
  if !(env.openOk && fs.pathExists src) then (fs, some .openFailed)
  else if !env.createOk then (fs, some .createFailed)
  else
    let fs1 := fs.setFile dst 0
    if !env.ioCopyOk then
      (if env.cleanupOk then fs1.removeFile dst else fs1.setFile dst env.leftoverSize,
       some .copyFailed)
    else
      (fs1.setFile dst env.copiedSize, none)

/-- Models `renamer.moveFile` (operations.go): try `os.Rename`; on failure fall back
to copy, verify by byte size (`srcInfo, _ := os.Stat(src)` ignores its error,
modeled by `getD 0`), remove the destination on mismatch, and finally remove
the source. -/
def moveFile (env : IOEnv) (fs : FS) (src dst : String) : FS × Option GoError :=
  if env.renameOk && fs.pathExists src then
    ((fs.removeFile src).setFile dst ((fs.lookup src).getD 0), none)
  else
    match copyFile env fs src dst with
    | (fs1, some e) => (fs1, some e)
    | (fs1, none) =>
      let srcSize := (fs1.lookup src).getD 0
      match fs1.lookup dst with
      | none => (fs1, some .verifyStatFailed)
      | some dstSize =>
        if srcSize ≠ dstSize then
          (if env.removeDstOk then fs1.removeFile dst else fs1, some .sizeMismatch)
        else if env.removeSrcOk then (fs1.removeFile src, none)
        else (fs1, some .removeSrcFailed)

/-- Models `Operation.Execute` (operations.go): dry-run short-circuit, source
existence check, destination skip-on-exists check, directory creation, then
the mode dispatch. -/
def Operation.Execute (op : Operation) (env : IOEnv) (dryRun : Bool) (fs : FS) :
    FS × Result :=
  if dryRun then
    (fs, ⟨op, true, false, none, "dry run - no changes made"⟩)
  else if !fs.pathExists op.Source then
    (fs, ⟨op, false, false, some (.sourceMissing op.Source), ""⟩)
  else if fs.pathExists op.Destination then
    (fs, ⟨op, true, true, none, "destination already exists, skipped"⟩)
  else if !env.mkdirOk then
    (fs, ⟨op, false, false, some .mkdirFailed, ""⟩)
  else
    let step : FS × Option GoError :=
      if op.Mode = ModeCopy then copyFile env fs op.Source op.Destination
      else if op.Mode = ModeMove then moveFile env fs op.Source op.Destination
      else (fs, some (.unknownMode op.Mode))
    match step with
    | (fs', some e) => (fs', ⟨op, false, false, some e, ""⟩)
    | (fs', none) => (fs', ⟨op, true, false, none, op.Mode ++ " completed"⟩)

/-- Models `renamer.BatchExecute` (operations.go): sequential execution in compiled
order, threading the filesystem; the oracle supplies each operation's I/O
outcomes by position (the progress callback is presentation only). -/
def BatchExecute (envAt : Nat → IOEnv) (dryRun : Bool) :
    List Operation → FS → FS × List Result
  | [], fs => (fs, [])
  | op :: rest, fs =>
    let s1 := op.Execute (envAt 0) dryRun fs
    let s2 := BatchExecute (fun i => envAt (i + 1)) dryRun rest s1.1
    (s2.1, s1.2 :: s2.2)

/-- The three result buckets of `cli.ShowResults`. -/
inductive OutcomeClass
  | succeeded
  | skipped
  | failed
deriving DecidableEq

/-- The classification chain of `cli.ShowResults`: an error counts as failed,
else skipped, else success; a result matching none of the three is counted
nowhere (`none`). -/
def classify (r : Result) : Option OutcomeClass :=
  if r.Error.isSome then some .failed
  else if r.Skipped then some .skipped
  else if r.Success then some .succeeded
  else none

/-! Section: Plan compiler (cmd/main.go) -/

/-- Models `main.Config` (the fields that flow into plan compilation; the database
path and script output settings feed no modeled function). -/
structure Config where
  OutputDir : String
  DryRun : Bool
  ScriptMode : Bool
  Mode : OperationMode
  TVFormat : String
  MovieFormat : String
  PathMapSrc : String
  PathMapDst : String
  AutoApprove : Bool
deriving DecidableEq

/-- ASCII lowering; Go's `strings.ToLower` also folds non-ASCII letters,
which differ from their lowercase forms only outside the path comparisons any
theorem below depends on. -/
def asciiToLower (c : Char) : Char :=
  if 'A' ≤ c ∧ c ≤ 'Z' then Char.ofNat (c.toNat + 32) else c

/-- Models `main.normalizePathForComparison`: lowercase, slash-normalize (identity
on the Unix build), then strip the Windows long-path markers `//?/` and
`//./` in sequence. -/
def normalizePathForComparison (path : String) : List Char :=
  let n := path.data.map asciiToLower
  let n := if (['/', '/', '?', '/'] : List Char).isPrefixOf n then n.drop 4 else n
  if (['/', '/', '.', '/'] : List Char).isPrefixOf n then n.drop 4 else n

/-- Models `strings.TrimSuffix(s, "/")`: removes one trailing slash if present. -/
def trimOneSlash (l : List Char) : List Char :=
  if l.getLast? = some '/' then l.dropLast else l

/-- The per-location test inside `main.pathInLocations` /
`main.getLocationForPath`: closed prefix match on normalized paths. -/
def locMatches (np : List Char) (loc : SectionLocation) : Bool :=
  (trimOneSlash (normalizePathForComparison loc.RootPath) ++ ['/']).isPrefixOf np

/-- Models `main.pathInLocations`. -/
def pathInLocations (filePath : String) (locations : List SectionLocation) : Bool :=
  locations.any (locMatches (normalizePathForComparison filePath))

/-- Models `main.getLocationForPath`: root path of the first matching location,
empty string when none matches. -/
def getLocationForPath (filePath : String) (locations : List SectionLocation) : String :=
  match locations.find? (locMatches (normalizePathForComparison filePath)) with
  | some loc => loc.RootPath
  | none => ""

/-- Models `main.fileInLocations`. -/
def fileInLocations (files : List MediaPart) (locations : List SectionLocation) : Bool :=
  files.any (fun file => pathInLocations file.File locations)

/-- Models `main.showInLocations`. -/
def showInLocations (s : ShowInfo) (locations : List SectionLocation) : Bool :=
  s.Seasons.any (fun season =>
    season.Episodes.any (fun episode => fileInLocations episode.Files locations))

/-- Models `cli.LocationWithOutput`. -/
structure LocationWithOutput where
  Location : SectionLocation
  OutputPath : String
deriving DecidableEq

/-- Models `cli.PathPreview`. -/
structure PathPreview where
  Source : String
  Destination : String
deriving DecidableEq

/-- The `getOutputPath` closure of `main.generateOperations`: per-location
override first, then the `--output` flag, then the file's own library root,
then the current directory.  It reads the original (unmapped) file path. -/
def getOutputPath (config : Config) (locationOutputs : List LocationWithOutput)
    (locations : List SectionLocation) (filePath : String) : String :=
  match locationOutputs.find? (fun lo => pathInLocations filePath [lo.Location]) with
  | some lo => lo.OutputPath
  | none =>
    if config.OutputDir ≠ "" then config.OutputDir
    else
      let locPath := getLocationForPath filePath locations
      if locPath ≠ "" then locPath else "."

/-- The per-file source rewrite in `main.generateOperations`: path mapping is
applied only when `--path-map` was given. -/
def mapSource (config : Config) (p : String) : String :=
  if config.PathMapSrc ≠ "" then ApplyPathMapping p config.PathMapSrc config.PathMapDst
  else p

/-- The preview built for one movie file inside `main.generateOperations`:
mapped source, extension from the mapped source, formatted name, output
directory resolved from the original path. -/
def previewForMovie (config : Config) (fmtr : Formatter)
    (locationOutputs : List LocationWithOutput) (locations : List SectionLocation)
    (movie : MovieInfo) (file : MediaPart) : PathPreview :=
  let srcPath := mapSource config file.File
  let destName := fmtr.FormatMovie movie (GetExtension srcPath)
  ⟨srcPath, goJoin (getOutputPath config locationOutputs locations file.File) destName⟩

/-- The preview built for one episode file inside `main.generateOperations`. -/
def previewForEpisode (config : Config) (fmtr : Formatter)
    (locationOutputs : List LocationWithOutput) (locations : List SectionLocation)
    (tvShow season : MetadataItem) (episode : EpisodeInfo) (file : MediaPart) :
    PathPreview :=
  let srcPath := mapSource config file.File
  let destName := fmtr.FormatEpisode tvShow season episode (GetExtension srcPath)
  ⟨srcPath, goJoin (getOutputPath config locationOutputs locations file.File) destName⟩

/-- The per-file location filter: `selectedLocations != nil` is modeled by
`Option`; a `nil` selection admits every file. -/
def fileEligible (sel : Option (List SectionLocation)) (path : String) : Bool :=
  match sel with
  | none => true
  | some locs => pathInLocations path locs

/-- The `selectedLocations != nil && !fileInLocations(...)` skip for a movie,
as its positive form. -/
def movieSelected (sel : Option (List SectionLocation)) (movie : MovieInfo) : Bool :=
  match sel with
  | none => true
  | some locs => fileInLocations movie.Files locs

/-- The `selectedLocations != nil && !showInLocations(...)` skip for a show,
as its positive form. -/
def showSelected (sel : Option (List SectionLocation)) (s : ShowInfo) : Bool :=
  match sel with
  | none => true
  | some locs => showInLocations s locs

/-- All previews of one movie (the inner file loop of the movie branch). -/
def moviePreviews (config : Config) (fmtr : Formatter)
    (locationOutputs : List LocationWithOutput) (locations : List SectionLocation)
    (sel : Option (List SectionLocation)) (movie : MovieInfo) : List PathPreview :=
  movie.Files.filterMap fun file =>
    if fileEligible sel file.File then
      some (previewForMovie config fmtr locationOutputs locations movie file)
    else none

/-- All previews of one episode (the innermost file loop of the show branch). -/
def episodePreviews (config : Config) (fmtr : Formatter)
    (locationOutputs : List LocationWithOutput) (locations : List SectionLocation)
    (sel : Option (List SectionLocation)) (tvShow season : MetadataItem)
    (episode : EpisodeInfo) : List PathPreview :=
  episode.Files.filterMap fun file =>
    if fileEligible sel file.File then
      some (previewForEpisode config fmtr locationOutputs locations tvShow season episode file)
    else none

/-- All previews of one show (seasons, then episodes, in catalog order). -/
def showPreviews (config : Config) (fmtr : Formatter)
    (locationOutputs : List LocationWithOutput) (locations : List SectionLocation)
    (sel : Option (List SectionLocation)) (s : ShowInfo) : List PathPreview :=
  (s.Seasons.map fun season =>
    (season.Episodes.map fun episode =>
      episodePreviews config fmtr locationOutputs locations sel
        s.Metadata season.Metadata episode).flatten).flatten

/-- The approval collaborator (`cli.Prompter.PromptMovie` / `PromptShow`)
abstracted to a decision oracle; any sequence of user answers, including the
approve-all toggle, is realizable as such a pair of functions. -/
structure PromptOracle where
  movieChoice : MovieInfo → List PathPreview → Bool
  showChoice : ShowInfo → List PathPreview → Bool

/-- A record of one approval prompt shown to the user. -/
structure PEvent where
  isShowPrompt : Bool
  entityID : Int
deriving DecidableEq

/-- Converts an approved preview into an operation (fixed batch-wide mode). -/
def opOfPreview (mode : OperationMode) (pv : PathPreview) : Operation :=
  ⟨pv.Source, pv.Destination, mode⟩

/-- The movie branch of `main.generateOperations`, also recording which
movies had their approval prompt invoked.  Note: unlike the show branch,
there is no empty-preview skip before the prompt. -/
def generateMovieOps (config : Config) (fmtr : Formatter) (oracle : PromptOracle)
    (locationOutputs : List LocationWithOutput) (locations : List SectionLocation)
    (sel : Option (List SectionLocation)) :
    List MovieInfo → List Operation × List PEvent
  | [] => ([], [])
  | movie :: rest =>
    let tail := generateMovieOps config fmtr oracle locationOutputs locations sel rest
    if !movieSelected sel movie then tail
    else
      let previews := moviePreviews config fmtr locationOutputs locations sel movie
      if !config.AutoApprove && !config.ScriptMode then
        if oracle.movieChoice movie previews then
          (previews.map (opOfPreview config.Mode) ++ tail.1,
           ⟨false, movie.Metadata.ID⟩ :: tail.2)
        else (tail.1, ⟨false, movie.Metadata.ID⟩ :: tail.2)
      else (previews.map (opOfPreview config.Mode) ++ tail.1, tail.2)

/-- The show branch of `main.generateOperations`: a show whose preview list
is empty is skipped before any prompt. -/
def generateShowOps (config : Config) (fmtr : Formatter) (oracle : PromptOracle)
    (locationOutputs : List LocationWithOutput) (locations : List SectionLocation)
    (sel : Option (List SectionLocation)) :
    List ShowInfo → List Operation × List PEvent
  | [] => ([], [])
  | s :: rest =>
    let tail := generateShowOps config fmtr oracle locationOutputs locations sel rest
    if !showSelected sel s then tail
    else
      let previews := showPreviews config fmtr locationOutputs locations sel s
      if previews = [] then tail
      else if !config.AutoApprove && !config.ScriptMode then
        if oracle.showChoice s previews then
          (previews.map (opOfPreview config.Mode) ++ tail.1,
           ⟨true, s.Metadata.ID⟩ :: tail.2)
        else (tail.1, ⟨true, s.Metadata.ID⟩ :: tail.2)
      else (previews.map (opOfPreview config.Mode) ++ tail.1, tail.2)

/-- Models `main.generateOperations`: dispatch on the section type, producing the
ordered operation list and the list of approval prompts shown. -/
def generateOperations (config : Config) (fmtr : Formatter) (oracle : PromptOracle)
    (content : LibraryContent) (sel : Option (List SectionLocation))
    (locationOutputs : List LocationWithOutput) : List Operation × List PEvent :=
  if content.Section.SectionType = SectionTypeMovie then
    generateMovieOps config fmtr oracle locationOutputs content.Locations sel content.Movies
  else if content.Section.SectionType = SectionTypeShow then
    generateShowOps config fmtr oracle locationOutputs content.Locations sel content.Shows
  else ([], [])

/-- Models `main.escapeCmdPath` (cmd/main.go): the sequence of `strings.ReplaceAll`
calls, in source order. -/
def escapeCmdPath (path : String) : String :=
  let r := goReplaceAll path "%" "%%"
  let r := goReplaceAll r "^" "^^"
  let r := goReplaceAll r "&" "^&"
  let r := goReplaceAll r "<" "^<"
  let r := goReplaceAll r ">" "^>"
  let r := goReplaceAll r "|" "^|"
  goReplaceAll r "!" "^!"

/-- The per-character image described by the claim: percent doubled, an input
caret doubled, and each of `&ᐸᐳ|!` prefixed with a single caret (escaping
carets never doubled). -/
def cmdEscapeChar (c : Char) : List Char :=
  if c = '%' then ['%', '%']
  else if c = '^' then ['^', '^']
  else if c = '&' then ['^', '&']
  else if c = '<' then ['^', '<']
  else if c = '>' then ['^', '>']
  else if c = '|' then ['^', '|']
  else if c = '!' then ['^', '!']
  else [c]

/-- The claim's characterization of batch escaping, as one character map. -/
def escapeCmdSpec (path : String) : String :=
  ⟨expand cmdEscapeChar path.data⟩

/-! Section: Filesystem lemmas -/

theorem FS.lookup_setFile_self (fs : FS) (p : String) (n : Nat) :
    (fs.setFile p n).lookup p = some n := by
  simp [FS.setFile, FS.lookup]

theorem FS.lookup_setFile_ne (fs : FS) (p : String) (n : Nat) (q : String)
    (h : q ≠ p) : (fs.setFile p n).lookup q = fs.lookup q := by
  simp [FS.setFile, FS.lookup, h]

theorem FS.lookup_removeFile_self (fs : FS) (p : String) :
    (fs.removeFile p).lookup p = none := by
  induction fs with
  | nil => rfl
  | cons e rest ih =>
    by_cases h : e.1 = p
    · simpa [FS.removeFile, List.filter, h] using ih
    · simpa [FS.removeFile, List.filter, h, FS.lookup, Ne.symm h] using ih

theorem FS.lookup_removeFile_ne (fs : FS) (p q : String) (h : q ≠ p) :
    (fs.removeFile p).lookup q = fs.lookup q := by
  induction fs with
  | nil => rfl
  | cons e rest ih =>
    by_cases he : e.1 = p
    · have hq : ¬(q = e.1) := fun hqe => h (hqe.trans he)
      have hfil : FS.removeFile (e :: rest) p = FS.removeFile rest p := by
        simp [FS.removeFile, List.filter_cons, he]
      rw [hfil, ih]
      simp [FS.lookup, hq]
    · have hfil : FS.removeFile (e :: rest) p = e :: FS.removeFile rest p := by
        simp [FS.removeFile, List.filter_cons, he]
      rw [hfil]
      simp [FS.lookup, ih]

/-! Section: Executor lemmas -/

/-- A live `Execute` whose source and destination both exist reports a
skipped success and leaves the filesystem untouched. -/
theorem execute_skip_of_exists (op : Operation) (env : IOEnv) (fs : FS)
    (hs : fs.pathExists op.Source = true) (hd : fs.pathExists op.Destination = true) :
    op.Execute env false fs =
      (fs, ⟨op, true, true, none, "destination already exists, skipped"⟩) := by
  simp [Operation.Execute, hs, hd]

/-! Section: Claim C4 -/

/-- Claim C4: with `dryRun = true`, `Execute` returns a success outcome and
performs no filesystem access: the returned state is the input state for
every filesystem, and the result is a constant independent of the filesystem
(so no existence check, directory creation, or transfer can have happened),
even when the source path does not exist. -/
theorem execute_dryRun_no_fs_access (op : Operation) (env : IOEnv) (fs : FS) :
    op.Execute env true fs =
      (fs, ⟨op, true, false, none, "dry run - no changes made"⟩) := by
  rfl

/-! Section: Claim C1 -/

/-- Claim C1, counterexample: a live operation whose destination exists but
whose source is missing (exactly the state after a completed move) is not
reported as skipped: `Execute` checks the source first and fails with the
source-missing error. -/
theorem execute_skip_claim_counterexample :
    let op : Operation := ⟨"/gone.mkv", "/dst.mkv", ModeMove⟩
    let fs : FS := [("/dst.mkv", 5)]
    let env : IOEnv := ⟨true, true, true, true, true, 5, true, 0, true, true⟩
    FS.pathExists fs op.Destination = true ∧
      ¬((op.Execute env false fs).2.Skipped = true ∧
        (op.Execute env false fs).2.Success = true) ∧
      (op.Execute env false fs).2.Error = some (.sourceMissing "/gone.mkv") := by
  decide

/-- Claim C1, amended: for every live operation whose destination exists and
whose source also still exists, `Execute` reports a skipped success and
leaves the filesystem unchanged; consequently a whole batch over
already-materialized destinations whose sources are still present (e.g. a
second copy-mode run) reports every operation as skipped and overwrites
nothing. -/
theorem execute_skip_on_exists_batch (envAt : Nat → IOEnv) (ops : List Operation)
    (fs : FS)
    (h : ∀ op ∈ ops, fs.pathExists op.Source = true ∧
        fs.pathExists op.Destination = true) :
    BatchExecute envAt false ops fs =
      (fs, ops.map fun op =>
        ⟨op, true, true, none, "destination already exists, skipped"⟩) := by
  induction ops generalizing envAt with
  | nil => rfl
  | cons op rest ih =>
    have h1 := h op (List.mem_cons_self op rest)
    have hrest : ∀ o ∈ rest, fs.pathExists o.Source = true ∧
        fs.pathExists o.Destination = true :=
      fun o ho => h o (List.mem_cons_of_mem op ho)
    simp only [BatchExecute, execute_skip_of_exists op (envAt 0) fs h1.1 h1.2,
      ih (fun i => envAt (i + 1)) hrest, List.map_cons]

/-- Claim C1, witness for the amended theorem at a concrete two-operation
copy batch whose destinations are already materialized. -/
theorem execute_skip_on_exists_batch_witness :
    (∀ op ∈ ([⟨"/a.mkv", "/o/a.mkv", ModeCopy⟩, ⟨"/b.mkv", "/o/b.mkv", ModeCopy⟩] :
        List Operation),
      FS.pathExists [("/a.mkv", 1), ("/b.mkv", 2), ("/o/a.mkv", 1), ("/o/b.mkv", 2)]
        op.Source = true ∧
      FS.pathExists [("/a.mkv", 1), ("/b.mkv", 2), ("/o/a.mkv", 1), ("/o/b.mkv", 2)]
        op.Destination = true) ∧
    BatchExecute (fun _ => ⟨true, true, true, true, true, 0, true, 0, true, true⟩) false
        [⟨"/a.mkv", "/o/a.mkv", ModeCopy⟩, ⟨"/b.mkv", "/o/b.mkv", ModeCopy⟩]
        [("/a.mkv", 1), ("/b.mkv", 2), ("/o/a.mkv", 1), ("/o/b.mkv", 2)] =
      ([("/a.mkv", 1), ("/b.mkv", 2), ("/o/a.mkv", 1), ("/o/b.mkv", 2)],
       [⟨⟨"/a.mkv", "/o/a.mkv", ModeCopy⟩, true, true, none,
          "destination already exists, skipped"⟩,
        ⟨⟨"/b.mkv", "/o/b.mkv", ModeCopy⟩, true, true, none,
          "destination already exists, skipped"⟩]) :=
  ⟨by decide,
   execute_skip_on_exists_batch
     (fun _ => ⟨true, true, true, true, true, 0, true, 0, true, true⟩)
     [⟨"/a.mkv", "/o/a.mkv", ModeCopy⟩, ⟨"/b.mkv", "/o/b.mkv", ModeCopy⟩]
     [("/a.mkv", 1), ("/b.mkv", 2), ("/o/a.mkv", 1), ("/o/b.mkv", 2)]
     (by decide)⟩

/-! Section: Claim C2 -/

/-- Claim C2: in the move fallback (rename failed), across every pattern of
I/O outcomes the source file is never deleted unless the destination holds a
file of the source's byte size; and when the copy succeeds but the sizes
mismatch, `moveFile` returns the verification error, leaves the source intact
with its original size, and (when the ignored-error `os.Remove` call itself
succeeds) the destination is deleted. -/
theorem moveFile_fallback_safe (env : IOEnv) (fs : FS) (src dst : String) (s : Nat)
    (hsrc : FS.lookup fs src = some s) (hdst : FS.lookup fs dst = none)
    (hren : env.renameOk = false) :
    (FS.lookup (moveFile env fs src dst).1 src = none →
      FS.lookup (moveFile env fs src dst).1 dst = some s) ∧
    (env.openOk = true → env.createOk = true → env.ioCopyOk = true →
      env.copiedSize ≠ s →
      (moveFile env fs src dst).2 = some .sizeMismatch ∧
      FS.lookup (moveFile env fs src dst).1 src = some s ∧
      (env.removeDstOk = true → FS.lookup (moveFile env fs src dst).1 dst = none)) := by
  have hne : src ≠ dst := by
    intro h
    rw [h, hdst] at hsrc
    exact Option.noConfusion hsrc
  have hex : fs.pathExists src = true := by simp [FS.pathExists, hsrc]
  cases hopen : env.openOk with
  | false =>
    have hmf : moveFile env fs src dst = (fs, some .openFailed) := by
      simp [moveFile, copyFile, hren, hopen]
    rw [hmf]
    exact ⟨by simp [hsrc], fun ho => (Bool.false_ne_true ho).elim⟩
  | true =>
    cases hcreate : env.createOk with
    | false =>
      have hmf : moveFile env fs src dst = (fs, some .createFailed) := by
        simp [moveFile, copyFile, hren, hopen, hcreate, hex]
      rw [hmf]
      exact ⟨by simp [hsrc],
        fun _ hc => (Bool.false_ne_true hc).elim⟩
    | true =>
      cases hcopy : env.ioCopyOk with
      | false =>
        cases hclean : env.cleanupOk with
        | false =>
          have hmf : moveFile env fs src dst =
              ((fs.setFile dst 0).setFile dst env.leftoverSize, some .copyFailed) := by
            simp [moveFile, copyFile, hren, hopen, hcreate, hcopy, hclean, hex]
          rw [hmf]
          refine ⟨fun habs => ?_,
            fun _ _ hc => (Bool.false_ne_true hc).elim⟩
          rw [FS.lookup_setFile_ne _ _ _ _ hne, FS.lookup_setFile_ne _ _ _ _ hne,
            hsrc] at habs
          exact Option.noConfusion habs
        | true =>
          have hmf : moveFile env fs src dst =
              ((fs.setFile dst 0).removeFile dst, some .copyFailed) := by
            simp [moveFile, copyFile, hren, hopen, hcreate, hcopy, hclean, hex]
          rw [hmf]
          refine ⟨fun habs => ?_,
            fun _ _ hc => (Bool.false_ne_true hc).elim⟩
          rw [FS.lookup_removeFile_ne _ _ _ hne, FS.lookup_setFile_ne _ _ _ _ hne,
            hsrc] at habs
          exact Option.noConfusion habs
      | true =>
        have l1 : FS.lookup ((fs.setFile dst 0).setFile dst env.copiedSize) src
            = some s := by
          rw [FS.lookup_setFile_ne _ _ _ _ hne, FS.lookup_setFile_ne _ _ _ _ hne, hsrc]
        have l2 : FS.lookup ((fs.setFile dst 0).setFile dst env.copiedSize) dst
            = some env.copiedSize := FS.lookup_setFile_self _ _ _
        by_cases hsz : env.copiedSize = s
        · rw [hsz] at l1 l2
          cases hremsrc : env.removeSrcOk with
          | true =>
            have hmf : moveFile env fs src dst =
                (((fs.setFile dst 0).setFile dst s).removeFile src, none) := by
              simp [moveFile, copyFile, hren, hopen, hcreate, hcopy, hex, l1, l2,
                hsz, hremsrc]
            rw [hmf]
            refine ⟨fun _ => ?_, fun _ _ _ habs => absurd hsz habs⟩
            rw [FS.lookup_removeFile_ne _ _ _ (Ne.symm hne), l2]
          | false =>
            have hmf : moveFile env fs src dst =
                ((fs.setFile dst 0).setFile dst s, some .removeSrcFailed) := by
              simp [moveFile, copyFile, hren, hopen, hcreate, hcopy, hex, l1, l2,
                hsz, hremsrc]
            rw [hmf]
            refine ⟨fun habs => ?_, fun _ _ _ habs => absurd hsz habs⟩
            rw [l1] at habs
            exact Option.noConfusion habs
        · have hszne : s ≠ env.copiedSize := fun h => hsz h.symm
          cases hremdst : env.removeDstOk with
          | true =>
            have hmf : moveFile env fs src dst =
                (((fs.setFile dst 0).setFile dst env.copiedSize).removeFile dst,
                  some .sizeMismatch) := by
              simp [moveFile, copyFile, hren, hopen, hcreate, hcopy, hex, l1, l2,
                hszne, hremdst]
            rw [hmf]
            constructor
            · intro habs
              rw [FS.lookup_removeFile_ne _ _ _ hne, l1] at habs
              exact Option.noConfusion habs
            · refine fun _ _ _ _ => ⟨rfl, ?_, fun _ => ?_⟩
              · rw [FS.lookup_removeFile_ne _ _ _ hne, l1]
              · exact FS.lookup_removeFile_self _ _
          | false =>
            have hmf : moveFile env fs src dst =
                ((fs.setFile dst 0).setFile dst env.copiedSize,
                  some .sizeMismatch) := by
              simp [moveFile, copyFile, hren, hopen, hcreate, hcopy, hex, l1, l2,
                hszne, hremdst]
            rw [hmf]
            constructor
            · intro habs
              rw [l1] at habs
              exact Option.noConfusion habs
            · exact fun _ _ _ _ => ⟨rfl, l1,
                fun hrd => (Bool.false_ne_true hrd).elim⟩

/-- Claim C2, witness: a concrete cross-filesystem move whose copy lands 7 of
10 bytes; the verification error is returned, the source is intact, the
destination removed. -/
theorem moveFile_fallback_safe_witness :
    FS.lookup [("/s.mkv", 10)] "/s.mkv" = some 10 ∧
    ((FS.lookup (moveFile ⟨true, false, true, true, true, 7, true, 0, true, true⟩
          [("/s.mkv", 10)] "/s.mkv" "/d.mkv").1 "/s.mkv" = none →
        FS.lookup (moveFile ⟨true, false, true, true, true, 7, true, 0, true, true⟩
          [("/s.mkv", 10)] "/s.mkv" "/d.mkv").1 "/d.mkv" = some 10) ∧
      (IOEnv.openOk ⟨true, false, true, true, true, 7, true, 0, true, true⟩ = true →
        IOEnv.createOk ⟨true, false, true, true, true, 7, true, 0, true, true⟩ = true →
        IOEnv.ioCopyOk ⟨true, false, true, true, true, 7, true, 0, true, true⟩ = true →
        IOEnv.copiedSize ⟨true, false, true, true, true, 7, true, 0, true, true⟩ ≠ 10 →
        (moveFile ⟨true, false, true, true, true, 7, true, 0, true, true⟩
            [("/s.mkv", 10)] "/s.mkv" "/d.mkv").2 = some .sizeMismatch ∧
        FS.lookup (moveFile ⟨true, false, true, true, true, 7, true, 0, true, true⟩
            [("/s.mkv", 10)] "/s.mkv" "/d.mkv").1 "/s.mkv" = some 10 ∧
        (IOEnv.removeDstOk ⟨true, false, true, true, true, 7, true, 0, true, true⟩
            = true →
          FS.lookup (moveFile ⟨true, false, true, true, true, 7, true, 0, true, true⟩
            [("/s.mkv", 10)] "/s.mkv" "/d.mkv").1 "/d.mkv" = none))) :=
  ⟨by decide,
   moveFile_fallback_safe ⟨true, false, true, true, true, 7, true, 0, true, true⟩
     [("/s.mkv", 10)] "/s.mkv" "/d.mkv" 10 (by decide) (by decide) (by decide)⟩

/-! Section: Claim C3 -/

/-- Dispatch lemma: a live move whose source exists, whose destination does
not, and whose directory creation succeeds reduces to `moveFile`. -/
theorem execute_move_step (op : Operation) (env : IOEnv) (fs : FS)
    (hm : op.Mode = ModeMove) (hs : fs.pathExists op.Source = true)
    (hd : fs.pathExists op.Destination = false) (hmk : env.mkdirOk = true) :
    op.Execute env false fs =
      (match moveFile env fs op.Source op.Destination with
       | (fs', some e) => (fs', ⟨op, false, false, some e, ""⟩)
       | (fs', none) => (fs', ⟨op, true, false, none, op.Mode ++ " completed"⟩)) := by
  have hmc : ¬(op.Mode = ModeCopy) := by rw [hm]; decide
  simp [Operation.Execute, hs, hd, hmk, hm, hmc]
  rw [if_neg (by decide : ¬(ModeMove = ModeCopy))]

/-- Claim C3, counterexample: a move whose copy succeeded and verified but
whose source removal failed is reported with `Success = false` and a set
`Error`, i.e. it lands in the failed bucket of `cli.ShowResults` — not in any
success-classified outcome. -/
theorem move_srcRemoval_claim_counterexample :
    let op : Operation := ⟨"/s.mkv", "/d.mkv", ModeMove⟩
    let fs : FS := [("/s.mkv", 10)]
    let env : IOEnv := ⟨true, false, true, true, true, 10, true, 0, true, false⟩
    (op.Execute env false fs).2.Success = false ∧
      (op.Execute env false fs).2.Error = some .removeSrcFailed ∧
      classify (op.Execute env false fs).2 = some .failed := by
  decide

/-- Claim C3, amended: when a move's copy succeeded, size verification
passed, and removal of the source then fails, the outcome reports the
operation as failed (`Success = false`, error set, classified `failed` by the
results summary) with the diagnostic error noting the copy succeeded but the
source could not be removed; the verified destination is kept and the source
is left in place. -/
theorem move_sourceRemoval_failure_outcome (env : IOEnv) (fs : FS)
    (src dst : String) (s : Nat)
    (hsrc : FS.lookup fs src = some s) (hdst : FS.lookup fs dst = none)
    (hmk : env.mkdirOk = true) (hren : env.renameOk = false)
    (hopen : env.openOk = true) (hcreate : env.createOk = true)
    (hcopy : env.ioCopyOk = true) (hcs : env.copiedSize = s)
    (hrs : env.removeSrcOk = false) :
    (Operation.Execute ⟨src, dst, ModeMove⟩ env false fs).2.Success = false ∧
    (Operation.Execute ⟨src, dst, ModeMove⟩ env false fs).2.Error =
      some .removeSrcFailed ∧
    classify (Operation.Execute ⟨src, dst, ModeMove⟩ env false fs).2 =
      some .failed ∧
    FS.lookup (Operation.Execute ⟨src, dst, ModeMove⟩ env false fs).1 dst = some s ∧
    FS.lookup (Operation.Execute ⟨src, dst, ModeMove⟩ env false fs).1 src = some s := by
  have hne : src ≠ dst := by
    intro h
    rw [h, hdst] at hsrc
    exact Option.noConfusion hsrc
  have hs : fs.pathExists src = true := by simp [FS.pathExists, hsrc]
  have hd : fs.pathExists dst = false := by simp [FS.pathExists, hdst]
  have l1 : FS.lookup ((fs.setFile dst 0).setFile dst s) src = some s := by
    rw [FS.lookup_setFile_ne _ _ _ _ hne, FS.lookup_setFile_ne _ _ _ _ hne, hsrc]
  have l2 : FS.lookup ((fs.setFile dst 0).setFile dst s) dst = some s :=
    FS.lookup_setFile_self _ _ _
  have hmf : moveFile env fs src dst =
      ((fs.setFile dst 0).setFile dst s, some .removeSrcFailed) := by
    simp [moveFile, copyFile, hren, hopen, hcreate, hcopy, hs, hcs, l1, l2, hrs]
  rw [execute_move_step ⟨src, dst, ModeMove⟩ env fs rfl hs hd hmk, hmf]
  exact ⟨rfl, rfl, rfl, l2, l1⟩

/-- Claim C3, witness for the amended theorem at a concrete input. -/
theorem move_sourceRemoval_failure_outcome_witness :
    FS.lookup [("/s.mkv", 10)] "/s.mkv" = some 10 ∧
    ((Operation.Execute ⟨"/s.mkv", "/d.mkv", ModeMove⟩
        ⟨true, false, true, true, true, 10, true, 0, true, false⟩ false
        [("/s.mkv", 10)]).2.Success = false ∧
      (Operation.Execute ⟨"/s.mkv", "/d.mkv", ModeMove⟩
        ⟨true, false, true, true, true, 10, true, 0, true, false⟩ false
        [("/s.mkv", 10)]).2.Error = some .removeSrcFailed ∧
      classify (Operation.Execute ⟨"/s.mkv", "/d.mkv", ModeMove⟩
        ⟨true, false, true, true, true, 10, true, 0, true, false⟩ false
        [("/s.mkv", 10)]).2 = some .failed ∧
      FS.lookup (Operation.Execute ⟨"/s.mkv", "/d.mkv", ModeMove⟩
        ⟨true, false, true, true, true, 10, true, 0, true, false⟩ false
        [("/s.mkv", 10)]).1 "/d.mkv" = some 10 ∧
      FS.lookup (Operation.Execute ⟨"/s.mkv", "/d.mkv", ModeMove⟩
        ⟨true, false, true, true, true, 10, true, 0, true, false⟩ false
        [("/s.mkv", 10)]).1 "/s.mkv" = some 10) :=
  ⟨by decide,
   move_sourceRemoval_failure_outcome
     ⟨true, false, true, true, true, 10, true, 0, true, false⟩
     [("/s.mkv", 10)] "/s.mkv" "/d.mkv" 10 (by decide) (by decide) (by decide)
     (by decide) (by decide) (by decide) (by decide) (by decide) (by decide)⟩

/-! Section: Claim C7 -/

/-- Claim C7: the end-to-end scenario — show "Show A" (2020), season 1,
episode 3 "Pilot" with file `/src/Show A/ep1.mkv`, default templates, move
mode, output directory `/out` — compiles to exactly one operation with the
claimed source, destination and kind (and, auto-approved, no prompts). -/
theorem show_scenario_end_to_end :
    generateOperations
      ⟨"/out", false, false, ModeMove, DefaultTVFormat, DefaultMovieFormat, "", "",
        true⟩
      (NewFormatter DefaultTVFormat DefaultMovieFormat)
      ⟨fun _ _ => true, fun _ _ => true⟩
      ⟨⟨1, "TV", SectionTypeShow⟩, [], [],
        [⟨⟨10, "Show A", some 2020, none⟩,
          [⟨⟨11, "Season 1", none, some 1⟩,
            [⟨⟨12, "Pilot", none, some 3⟩, [⟨"/src/Show A/ep1.mkv", 0⟩]⟩]⟩]⟩]⟩
      none [] =
    ([⟨"/src/Show A/ep1.mkv", "/out/Show A/Season 1/S01E03 - Pilot.mkv", ModeMove⟩],
      []) := by
  decide

/-! Section: Claim C5 -/

/-- Claim C5, counterexample: a movie whose file list is empty (no location
filter active) contributes zero operations but its approval prompt is still
invoked — the movie branch, unlike the show branch, has no empty-preview skip
before the prompt. -/
theorem empty_movie_still_prompted_counterexample :
    ¬((generateOperations
        ⟨"/out", false, false, ModeMove, DefaultTVFormat, DefaultMovieFormat, "", "",
          false⟩
        (NewFormatter "" "")
        ⟨fun _ _ => false, fun _ _ => false⟩
        ⟨⟨1, "Movies", SectionTypeMovie⟩, [], [⟨⟨7, "M", none, none⟩, []⟩], []⟩
        none []).2 = []) := by
  decide

/-- Claim C5, amended: an entity with an empty eligible-file set contributes
zero operations; a show with an empty preview list is additionally never
presented at the approval step, and a movie is skipped before its prompt only
when the location filter excludes it — a movie whose eligible-file set is
empty for any other reason still has its approval prompt invoked. -/
theorem empty_entity_contributes_nothing (config : Config) (fmtr : Formatter)
    (oracle : PromptOracle) (lo : List LocationWithOutput)
    (locs : List SectionLocation) (sel : Option (List SectionLocation))
    (tvShow : ShowInfo) (shows : List ShowInfo) (movie : MovieInfo)
    (movies : List MovieInfo) (s : List SectionLocation) :
    (showPreviews config fmtr lo locs sel tvShow = [] →
      generateShowOps config fmtr oracle lo locs sel (tvShow :: shows) =
        generateShowOps config fmtr oracle lo locs sel shows) ∧
    (moviePreviews config fmtr lo locs sel movie = [] →
      (generateMovieOps config fmtr oracle lo locs sel (movie :: movies)).1 =
        (generateMovieOps config fmtr oracle lo locs sel movies).1) ∧
    (sel = some s → fileInLocations movie.Files s = false →
      generateMovieOps config fmtr oracle lo locs sel (movie :: movies) =
        generateMovieOps config fmtr oracle lo locs sel movies) := by
  refine ⟨fun hp => ?_, fun hp => ?_, fun hsel hfl => ?_⟩
  · cases hss : showSelected sel tvShow <;> simp [generateShowOps, hss, hp]
  · cases hms : movieSelected sel movie
    · simp [generateMovieOps, hms, hp]
    · simp only [generateMovieOps, hms, hp, Bool.not_true, Bool.false_eq_true,
        if_false, List.map_nil, List.nil_append]
      split_ifs <;> simp
  · subst hsel
    simp [generateMovieOps, movieSelected, hfl]

/-- Claim C5, witness for the amended theorem: a location filter on `/x`
with a show and a movie whose only files live under `/y`. -/
theorem empty_entity_contributes_nothing_witness :
    (showPreviews ⟨"/out", false, false, ModeMove, "", "", "", "", false⟩
        (NewFormatter "" "") [] [] (some [⟨1, "/x", 1⟩])
        ⟨⟨20, "S", none, none⟩,
          [⟨⟨21, "Season 1", none, some 1⟩,
            [⟨⟨22, "E", none, some 1⟩, [⟨"/y/e.mkv", 0⟩]⟩]⟩]⟩ = [] ∧
      moviePreviews ⟨"/out", false, false, ModeMove, "", "", "", "", false⟩
        (NewFormatter "" "") [] [] (some [⟨1, "/x", 1⟩])
        ⟨⟨7, "M", none, none⟩, [⟨"/y/a.mkv", 0⟩]⟩ = [] ∧
      fileInLocations [⟨"/y/a.mkv", 0⟩] [⟨1, "/x", 1⟩] = false) ∧
    (generateShowOps ⟨"/out", false, false, ModeMove, "", "", "", "", false⟩
        (NewFormatter "" "") ⟨fun _ _ => true, fun _ _ => true⟩ [] []
        (some [⟨1, "/x", 1⟩])
        [⟨⟨20, "S", none, none⟩,
          [⟨⟨21, "Season 1", none, some 1⟩,
            [⟨⟨22, "E", none, some 1⟩, [⟨"/y/e.mkv", 0⟩]⟩]⟩]⟩] =
      generateShowOps ⟨"/out", false, false, ModeMove, "", "", "", "", false⟩
        (NewFormatter "" "") ⟨fun _ _ => true, fun _ _ => true⟩ [] []
        (some [⟨1, "/x", 1⟩]) [] ∧
      generateMovieOps ⟨"/out", false, false, ModeMove, "", "", "", "", false⟩
        (NewFormatter "" "") ⟨fun _ _ => true, fun _ _ => true⟩ [] []
        (some [⟨1, "/x", 1⟩]) [⟨⟨7, "M", none, none⟩, [⟨"/y/a.mkv", 0⟩]⟩] =
      generateMovieOps ⟨"/out", false, false, ModeMove, "", "", "", "", false⟩
        (NewFormatter "" "") ⟨fun _ _ => true, fun _ _ => true⟩ [] []
        (some [⟨1, "/x", 1⟩]) []) :=
  ⟨by decide,
   (empty_entity_contributes_nothing
      ⟨"/out", false, false, ModeMove, "", "", "", "", false⟩ (NewFormatter "" "")
      ⟨fun _ _ => true, fun _ _ => true⟩ [] [] (some [⟨1, "/x", 1⟩])
      ⟨⟨20, "S", none, none⟩,
        [⟨⟨21, "Season 1", none, some 1⟩,
          [⟨⟨22, "E", none, some 1⟩, [⟨"/y/e.mkv", 0⟩]⟩]⟩]⟩ []
      ⟨⟨7, "M", none, none⟩, [⟨"/y/a.mkv", 0⟩]⟩ [] [⟨1, "/x", 1⟩]).1 (by decide),
   (empty_entity_contributes_nothing
      ⟨"/out", false, false, ModeMove, "", "", "", "", false⟩ (NewFormatter "" "")
      ⟨fun _ _ => true, fun _ _ => true⟩ [] [] (some [⟨1, "/x", 1⟩])
      ⟨⟨20, "S", none, none⟩,
        [⟨⟨21, "Season 1", none, some 1⟩,
          [⟨⟨22, "E", none, some 1⟩, [⟨"/y/e.mkv", 0⟩]⟩]⟩]⟩ []
      ⟨⟨7, "M", none, none⟩, [⟨"/y/a.mkv", 0⟩]⟩ [] [⟨1, "/x", 1⟩]).2.2 rfl
     (by decide)⟩

/-! Section: Claim C9 -/

/-- Every operation of the movie branch arises from an eligible file of one
of the movies, as the corresponding preview. -/
theorem mem_generateMovieOps (config : Config) (fmtr : Formatter)
    (oracle : PromptOracle) (lo : List LocationWithOutput)
    (locs : List SectionLocation) (sel : Option (List SectionLocation))
    (movies : List MovieInfo) (op : Operation)
    (h : op ∈ (generateMovieOps config fmtr oracle lo locs sel movies).1) :
    ∃ movie ∈ movies, ∃ file ∈ movie.Files, fileEligible sel file.File = true ∧
      op = opOfPreview config.Mode (previewForMovie config fmtr lo locs movie file) := by
  induction movies with
  | nil => exact absurd h (List.not_mem_nil op)
  | cons movie rest ih =>
    have lift : op ∈ (generateMovieOps config fmtr oracle lo locs sel rest).1 →
        (∃ m ∈ movie :: rest, ∃ file ∈ m.Files, fileEligible sel file.File = true ∧
          op = opOfPreview config.Mode (previewForMovie config fmtr lo locs m file)) :=
      fun hr =>
        match ih hr with
        | ⟨m, hm, file, hf, hel, heq⟩ =>
          ⟨m, List.mem_cons_of_mem movie hm, file, hf, hel, heq⟩
    have fromPrev : op ∈ (moviePreviews config fmtr lo locs sel movie).map
        (opOfPreview config.Mode) →
        (∃ m ∈ movie :: rest, ∃ file ∈ m.Files, fileEligible sel file.File = true ∧
          op = opOfPreview config.Mode (previewForMovie config fmtr lo locs m file)) := by
      intro hr
      obtain ⟨pv, hpv, heq⟩ := List.mem_map.mp hr
      obtain ⟨file, hf, hif⟩ := List.mem_filterMap.mp hpv
      by_cases hel : fileEligible sel file.File = true
      · rw [if_pos hel] at hif
        exact ⟨movie, List.mem_cons_self movie rest, file, hf, hel,
          heq.symm.trans (by rw [Option.some_inj.mp hif])⟩
      · rw [if_neg hel] at hif
        exact Option.noConfusion hif
    simp only [generateMovieOps] at h
    by_cases hms : movieSelected sel movie
    · rw [if_neg (by simp [hms])] at h
      by_cases hpr : (!config.AutoApprove && !config.ScriptMode) = true
      · rw [if_pos hpr] at h
        by_cases hor : oracle.movieChoice movie
            (moviePreviews config fmtr lo locs sel movie) = true
        · rw [if_pos hor] at h
          rcases List.mem_append.mp h with hin | hin
          · exact fromPrev hin
          · exact lift hin
        · rw [if_neg hor] at h
          exact lift h
      · rw [if_neg hpr] at h
        rcases List.mem_append.mp h with hin | hin
        · exact fromPrev hin
        · exact lift hin
    · rw [if_pos (by simp [hms])] at h
      exact lift h

/-- Every operation of the show branch arises from an eligible file of some
episode of one of the shows, as the corresponding preview. -/
theorem mem_generateShowOps (config : Config) (fmtr : Formatter)
    (oracle : PromptOracle) (lo : List LocationWithOutput)
    (locs : List SectionLocation) (sel : Option (List SectionLocation))
    (shows : List ShowInfo) (op : Operation)
    (h : op ∈ (generateShowOps config fmtr oracle lo locs sel shows).1) :
    ∃ s ∈ shows, ∃ season ∈ s.Seasons, ∃ episode ∈ season.Episodes,
      ∃ file ∈ episode.Files, fileEligible sel file.File = true ∧
      op = opOfPreview config.Mode
        (previewForEpisode config fmtr lo locs s.Metadata season.Metadata episode
          file) := by
  induction shows with
  | nil => exact absurd h (List.not_mem_nil op)
  | cons s rest ih =>
    have lift : op ∈ (generateShowOps config fmtr oracle lo locs sel rest).1 →
        (∃ s' ∈ s :: rest, ∃ season ∈ s'.Seasons, ∃ episode ∈ season.Episodes,
          ∃ file ∈ episode.Files, fileEligible sel file.File = true ∧
          op = opOfPreview config.Mode (previewForEpisode config fmtr lo locs
            s'.Metadata season.Metadata episode file)) :=
      fun hr =>
        match ih hr with
        | ⟨s', hs, season, hse, episode, hep, file, hf, hel, heq⟩ =>
          ⟨s', List.mem_cons_of_mem s hs, season, hse, episode, hep, file, hf, hel,
            heq⟩
    have fromPrev : op ∈ (showPreviews config fmtr lo locs sel s).map
        (opOfPreview config.Mode) →
        (∃ s' ∈ s :: rest, ∃ season ∈ s'.Seasons, ∃ episode ∈ season.Episodes,
          ∃ file ∈ episode.Files, fileEligible sel file.File = true ∧
          op = opOfPreview config.Mode (previewForEpisode config fmtr lo locs
            s'.Metadata season.Metadata episode file)) := by
      intro hr
      obtain ⟨pv, hpv, heq⟩ := List.mem_map.mp hr
      simp only [showPreviews] at hpv
      obtain ⟨l1, hl1, hpv1⟩ := List.mem_flatten.mp hpv
      obtain ⟨season, hse, hl1eq⟩ := List.mem_map.mp hl1
      subst hl1eq
      obtain ⟨l2, hl2, hpv2⟩ := List.mem_flatten.mp hpv1
      obtain ⟨episode, hep, hl2eq⟩ := List.mem_map.mp hl2
      subst hl2eq
      obtain ⟨file, hf, hif⟩ := List.mem_filterMap.mp hpv2
      by_cases hel : fileEligible sel file.File = true
      · rw [if_pos hel] at hif
        exact ⟨s, List.mem_cons_self s rest, season, hse, episode, hep, file, hf,
          hel, heq.symm.trans (by rw [Option.some_inj.mp hif])⟩
      · rw [if_neg hel] at hif
        exact Option.noConfusion hif
    simp only [generateShowOps] at h
    by_cases hss : showSelected sel s
    · rw [if_neg (by simp [hss])] at h
      by_cases hemp : showPreviews config fmtr lo locs sel s = []
      · rw [if_pos hemp] at h
        exact lift h
      · rw [if_neg hemp] at h
        by_cases hpr : (!config.AutoApprove && !config.ScriptMode) = true
        · rw [if_pos hpr] at h
          by_cases hor : oracle.showChoice s
              (showPreviews config fmtr lo locs sel s) = true
          · rw [if_pos hor] at h
            rcases List.mem_append.mp h with hin | hin
            · exact fromPrev hin
            · exact lift hin
          · rw [if_neg hor] at h
            exact lift h
        · rw [if_neg hpr] at h
          rcases List.mem_append.mp h with hin | hin
          · exact fromPrev hin
          · exact lift hin
    · rw [if_pos (by simp [hss])] at h
      exact lift h

/-- Claim C9, counterexample: nothing in the compiler enforces
source ≠ destination — a movie already sitting at its formatted name under
its own library root (no output flag) compiles to an operation whose source
equals its destination. -/
theorem plannedOp_src_ne_dst_counterexample :
    ((generateOperations
        ⟨"", false, false, ModeMove, DefaultTVFormat, DefaultMovieFormat, "", "",
          true⟩
        (NewFormatter "" "")
        ⟨fun _ _ => true, fun _ _ => true⟩
        ⟨⟨1, "Movies", SectionTypeMovie⟩, [⟨1, "/lib", 1⟩],
          [⟨⟨1, "Title", some 2020, none⟩, [⟨"/lib/Title (2020).mkv", 0⟩]⟩], []⟩
        none []).1.all fun op => op.Source != op.Destination) = false := by
  decide

/-- Claim C9, amended: every compiled operation's destination is the resolved
output directory of its file joined with the sanitized, template-formatted
name, its source is the (possibly path-mapped) file path, and its kind is the
batch-wide mode — but source ≠ destination is not guaranteed. -/
theorem plannedOp_destination_shape (config : Config) (fmtr : Formatter)
    (oracle : PromptOracle) (content : LibraryContent)
    (sel : Option (List SectionLocation)) (lo : List LocationWithOutput)
    (op : Operation)
    (h : op ∈ (generateOperations config fmtr oracle content sel lo).1) :
    (∃ movie ∈ content.Movies, ∃ file ∈ movie.Files,
      op.Destination = goJoin (getOutputPath config lo content.Locations file.File)
        (fmtr.FormatMovie movie (GetExtension (mapSource config file.File))) ∧
      op.Source = mapSource config file.File ∧ op.Mode = config.Mode) ∨
    (∃ s ∈ content.Shows, ∃ season ∈ s.Seasons, ∃ episode ∈ season.Episodes,
      ∃ file ∈ episode.Files,
      op.Destination = goJoin (getOutputPath config lo content.Locations file.File)
        (fmtr.FormatEpisode s.Metadata season.Metadata episode
          (GetExtension (mapSource config file.File))) ∧
      op.Source = mapSource config file.File ∧ op.Mode = config.Mode) := by
  simp only [generateOperations] at h
  by_cases h1 : content.Section.SectionType = SectionTypeMovie
  · rw [if_pos h1] at h
    obtain ⟨movie, hm, file, hf, _, heq⟩ :=
      mem_generateMovieOps config fmtr oracle lo content.Locations sel
        content.Movies op h
    subst heq
    exact Or.inl ⟨movie, hm, file, hf, rfl, rfl, rfl⟩
  · rw [if_neg h1] at h
    by_cases h2 : content.Section.SectionType = SectionTypeShow
    · rw [if_pos h2] at h
      obtain ⟨s, hs, season, hse, episode, hep, file, hf, _, heq⟩ :=
        mem_generateShowOps config fmtr oracle lo content.Locations sel
          content.Shows op h
      subst heq
      exact Or.inr ⟨s, hs, season, hse, episode, hep, file, hf, rfl, rfl, rfl⟩
    · rw [if_neg h2] at h
      exact absurd h (List.not_mem_nil op)

/-- Claim C9, witness for the amended theorem at the C7-style concrete
library. -/
theorem plannedOp_destination_shape_witness :
    (⟨"/src/Show A/ep1.mkv", "/out/Show A/Season 1/S01E03 - Pilot.mkv", ModeMove⟩ :
        Operation) ∈
      (generateOperations
        ⟨"/out", false, false, ModeMove, DefaultTVFormat, DefaultMovieFormat, "", "",
          true⟩
        (NewFormatter DefaultTVFormat DefaultMovieFormat)
        ⟨fun _ _ => true, fun _ _ => true⟩
        ⟨⟨1, "TV", SectionTypeShow⟩, [], [],
          [⟨⟨10, "Show A", some 2020, none⟩,
            [⟨⟨11, "Season 1", none, some 1⟩,
              [⟨⟨12, "Pilot", none, some 3⟩, [⟨"/src/Show A/ep1.mkv", 0⟩]⟩]⟩]⟩]⟩
        none []).1 ∧
    ((∃ movie ∈ ([] : List MovieInfo), ∃ file ∈ movie.Files,
      (⟨"/src/Show A/ep1.mkv", "/out/Show A/Season 1/S01E03 - Pilot.mkv", ModeMove⟩ :
        Operation).Destination =
        goJoin (getOutputPath
          ⟨"/out", false, false, ModeMove, DefaultTVFormat, DefaultMovieFormat, "",
            "", true⟩ [] [] file.File)
          ((NewFormatter DefaultTVFormat DefaultMovieFormat).FormatMovie movie
            (GetExtension (mapSource
              ⟨"/out", false, false, ModeMove, DefaultTVFormat, DefaultMovieFormat,
                "", "", true⟩ file.File))) ∧
      (⟨"/src/Show A/ep1.mkv", "/out/Show A/Season 1/S01E03 - Pilot.mkv", ModeMove⟩ :
        Operation).Source = mapSource
          ⟨"/out", false, false, ModeMove, DefaultTVFormat, DefaultMovieFormat, "",
            "", true⟩ file.File ∧
      (⟨"/src/Show A/ep1.mkv", "/out/Show A/Season 1/S01E03 - Pilot.mkv", ModeMove⟩ :
        Operation).Mode = ModeMove) ∨
    (∃ s ∈ [(⟨⟨10, "Show A", some 2020, none⟩,
          [⟨⟨11, "Season 1", none, some 1⟩,
            [⟨⟨12, "Pilot", none, some 3⟩, [⟨"/src/Show A/ep1.mkv", 0⟩]⟩]⟩]⟩ :
          ShowInfo)],
      ∃ season ∈ s.Seasons, ∃ episode ∈ season.Episodes, ∃ file ∈ episode.Files,
      (⟨"/src/Show A/ep1.mkv", "/out/Show A/Season 1/S01E03 - Pilot.mkv", ModeMove⟩ :
        Operation).Destination =
        goJoin (getOutputPath
          ⟨"/out", false, false, ModeMove, DefaultTVFormat, DefaultMovieFormat, "",
            "", true⟩ [] [] file.File)
          ((NewFormatter DefaultTVFormat DefaultMovieFormat).FormatEpisode s.Metadata
            season.Metadata episode
            (GetExtension (mapSource
              ⟨"/out", false, false, ModeMove, DefaultTVFormat, DefaultMovieFormat,
                "", "", true⟩ file.File))) ∧
      (⟨"/src/Show A/ep1.mkv", "/out/Show A/Season 1/S01E03 - Pilot.mkv", ModeMove⟩ :
        Operation).Source = mapSource
          ⟨"/out", false, false, ModeMove, DefaultTVFormat, DefaultMovieFormat, "",
            "", true⟩ file.File ∧
      (⟨"/src/Show A/ep1.mkv", "/out/Show A/Season 1/S01E03 - Pilot.mkv", ModeMove⟩ :
        Operation).Mode = ModeMove)) :=
  ⟨by decide,
   plannedOp_destination_shape
     ⟨"/out", false, false, ModeMove, DefaultTVFormat, DefaultMovieFormat, "", "",
       true⟩
     (NewFormatter DefaultTVFormat DefaultMovieFormat)
     ⟨fun _ _ => true, fun _ _ => true⟩
     ⟨⟨1, "TV", SectionTypeShow⟩, [], [],
       [⟨⟨10, "Show A", some 2020, none⟩,
         [⟨⟨11, "Season 1", none, some 1⟩,
           [⟨⟨12, "Pilot", none, some 3⟩, [⟨"/src/Show A/ep1.mkv", 0⟩]⟩]⟩]⟩]⟩
     none []
     ⟨"/src/Show A/ep1.mkv", "/out/Show A/Season 1/S01E03 - Pilot.mkv", ModeMove⟩
     (by decide)⟩

/-! Section: Claim C10 -/

/-- Claim C10: output-directory resolution is computed from the original
catalog file path, before path mapping.  Turning a path mapping on (from no
mapping) leaves `getOutputPath` untouched on every path and leaves every
per-file preview's destination unchanged (whenever the mapping preserves the
file's extension, which is what feeds the formatted name); only the preview's
source receives the from-prefix-to-prefix rewrite. -/
theorem pathMapping_only_rewrites_source (config : Config) (a b : String)
    (fmtr : Formatter) (lo : List LocationWithOutput)
    (locs : List SectionLocation) (movie : MovieInfo)
    (tvShow season : MetadataItem) (episode : EpisodeInfo) (file : MediaPart)
    (p : String) (hbase : config.PathMapSrc = "") (ha : a ≠ "") :
    (getOutputPath { config with PathMapSrc := a, PathMapDst := b } lo locs p =
      getOutputPath config lo locs p) ∧
    (GetExtension (ApplyPathMapping file.File a b) = GetExtension file.File →
      previewForMovie { config with PathMapSrc := a, PathMapDst := b } fmtr lo locs
          movie file =
        ⟨ApplyPathMapping file.File a b,
         (previewForMovie config fmtr lo locs movie file).Destination⟩) ∧
    (GetExtension (ApplyPathMapping file.File a b) = GetExtension file.File →
      previewForEpisode { config with PathMapSrc := a, PathMapDst := b } fmtr lo
          locs tvShow season episode file =
        ⟨ApplyPathMapping file.File a b,
         (previewForEpisode config fmtr lo locs tvShow season episode file).Destination⟩) := by
  refine ⟨rfl, fun hext => ?_, fun hext => ?_⟩
  · simp [previewForMovie, mapSource, hbase, ha, hext, getOutputPath]
  · simp [previewForEpisode, mapSource, hbase, ha, hext, getOutputPath]

/-- Claim C10, witness: the mapping `/srv` to `/mnt` on a file under `/srv`
rewrites the preview's source and leaves its destination untouched. -/
theorem pathMapping_only_rewrites_source_witness :
    ("" : String) = "" ∧ ("/srv" : String) ≠ "" ∧
    (GetExtension (ApplyPathMapping "/srv/x/a.mkv" "/srv" "/mnt") =
        GetExtension "/srv/x/a.mkv" →
      previewForMovie
          { (⟨"/out", false, false, ModeMove, "", "", "", "", true⟩ : Config) with
            PathMapSrc := "/srv", PathMapDst := "/mnt" }
          (NewFormatter "" "") [] []
          ⟨⟨1, "T", some 2020, none⟩, [⟨"/srv/x/a.mkv", 0⟩]⟩ ⟨"/srv/x/a.mkv", 0⟩ =
        ⟨ApplyPathMapping "/srv/x/a.mkv" "/srv" "/mnt",
         (previewForMovie (⟨"/out", false, false, ModeMove, "", "", "", "", true⟩ :
              Config)
            (NewFormatter "" "") [] []
            ⟨⟨1, "T", some 2020, none⟩, [⟨"/srv/x/a.mkv", 0⟩]⟩
            ⟨"/srv/x/a.mkv", 0⟩).Destination⟩) :=
  ⟨rfl, by decide,
   (pathMapping_only_rewrites_source
      (⟨"/out", false, false, ModeMove, "", "", "", "", true⟩ : Config) "/srv" "/mnt"
      (NewFormatter "" "") [] []
      ⟨⟨1, "T", some 2020, none⟩, [⟨"/srv/x/a.mkv", 0⟩]⟩
      ⟨2, "S", none, none⟩ ⟨3, "Season 1", none, some 1⟩
      ⟨⟨4, "E", none, some 1⟩, []⟩ ⟨"/srv/x/a.mkv", 0⟩ "/srv/x/a.mkv"
      rfl (by decide)).2.1⟩

/-! Section: Claim C8 -/

theorem expand_append (f : Char → List Char) (l1 l2 : List Char) :
    expand f (l1 ++ l2) = expand f l1 ++ expand f l2 := by
  induction l1 with
  | nil => rfl
  | cons c rest ih => simp [expand, ih]

theorem expand_expand (g f : Char → List Char) (l : List Char) :
    expand g (expand f l) = expand (fun c => expand g (f c)) l := by
  induction l with
  | nil => rfl
  | cons c rest ih => simp [expand, expand_append, ih]

/-- Models `strings.ReplaceAll` with a single-character pattern is the per-character
flat map. -/
theorem replaceAllAux_single (a : Char) (rep : List Char) :
    ∀ (n : Nat) (s : List Char), s.length ≤ n →
      replaceAllAux [a] rep n s =
        expand (fun c => if c = a then rep else [c]) s := by
  intro n
  induction n with
  | zero =>
    intro s hs
    rw [List.length_eq_zero.mp (Nat.le_zero.mp hs)]
    rfl
  | succ n ih =>
    intro s hs
    cases s with
    | nil => rfl
    | cons c rest =>
      have hlen : rest.length ≤ n := Nat.le_of_succ_le_succ hs
      by_cases h : a = c
      · subst h
        have hpre : [a].isPrefixOf (a :: rest) = true := by simp [List.isPrefixOf]
        simp [replaceAllAux, hpre, expand, ih rest hlen]
      · have hca : ¬(c = a) := fun hc => h hc.symm
        have hpre : [a].isPrefixOf (c :: rest) = false := by
          simp [List.isPrefixOf, h]
        simp [replaceAllAux, hpre, expand, ih rest hlen, hca]

theorem replaceAllL_single (s : List Char) (a : Char) (rep : List Char) :
    replaceAllL s [a] rep = expand (fun c => if c = a then rep else [c]) s :=
  replaceAllAux_single a rep s.length s (Nat.le_refl _)

/-- The full escape chain, fused into one character map. -/
theorem escapeCmdChain (l : List Char) :
    replaceAllL (replaceAllL (replaceAllL (replaceAllL (replaceAllL (replaceAllL
      (replaceAllL l ['%'] ['%', '%']) ['^'] ['^', '^']) ['&'] ['^', '&'])
      ['<'] ['^', '<']) ['>'] ['^', '>']) ['|'] ['^', '|']) ['!'] ['^', '!'] =
    expand cmdEscapeChar l := by
  simp only [replaceAllL_single, expand_expand]
  congr 1
  funext c
  by_cases h1 : c = '%'
  · subst h1; decide
  by_cases h2 : c = '^'
  · subst h2; decide
  by_cases h3 : c = '&'
  · subst h3; decide
  by_cases h4 : c = '<'
  · subst h4; decide
  by_cases h5 : c = '>'
  · subst h5; decide
  by_cases h6 : c = '|'
  · subst h6; decide
  by_cases h7 : c = '!'
  · subst h7; decide
  simp [cmdEscapeChar, expand, h1, h2, h3, h4, h5, h6, h7]

/-- Claim C8: the Windows batch escaping function produces exactly the string
described by the claim — every percent doubled, every input caret doubled,
and each of the five dangerous characters prefixed with a single caret, the
caret doubling happening first so escaping carets are never doubled (the
fused per-character map `cmdEscapeChar` is exactly that description). -/
theorem escapeCmdPath_eq_spec (s : String) : escapeCmdPath s = escapeCmdSpec s :=
  congrArg String.mk (escapeCmdChain s.data)

/-! Section: Claim C6 -/

/-- The characters the claim bans from sanitizer output (exactly the
replacement-table keys). -/
def bannedChar (c : Char) : Bool :=
  c = ':' || c = '/' || c = '\\' || c = '*' || c = '?' || c = '"' ||
  c = '<' || c = '>' || c = '|'

/-- The claim's property of a sanitized name: no banned character, no
control character, no leading or trailing space, and no trailing period. -/
def sanitizedClaimOK (l : List Char) : Bool :=
  l.all (fun c => !bannedChar c && !isGoControl c) &&
  l.head?.all (fun c => c != ' ') &&
  l.getLast?.all (fun c => c != ' ' && c != '.')

/-- The fused per-character map of the sanitizer replacement table. -/
def sanChar (c : Char) : List Char :=
  if c = ':' then [' ', '-']
  else if c = '/' then ['-']
  else if c = '\\' then ['-']
  else if c = '*' then []
  else if c = '?' then []
  else if c = '"' then ['\'']
  else if c = '<' then []
  else if c = '>' then []
  else if c = '|' then ['-']
  else [c]

/-- The replacement-table pass equals the fused per-character map, which also
witnesses its independence of the Go map iteration order. -/
theorem applyReplacements_eq_expand (l : List Char) :
    applyReplacements sanitizeReplacements l = expand sanChar l := by
  simp only [sanitizeReplacements, applyReplacements, replaceAllL_single,
    expand_expand]
  congr 1
  funext c
  by_cases h1 : c = ':'
  · subst h1; decide
  by_cases h2 : c = '/'
  · subst h2; decide
  by_cases h3 : c = '\\'
  · subst h3; decide
  by_cases h4 : c = '*'
  · subst h4; decide
  by_cases h5 : c = '?'
  · subst h5; decide
  by_cases h6 : c = '"'
  · subst h6; decide
  by_cases h7 : c = '<'
  · subst h7; decide
  by_cases h8 : c = '>'
  · subst h8; decide
  by_cases h9 : c = '|'
  · subst h9; decide
  simp [sanChar, expand, h1, h2, h3, h4, h5, h6, h7, h8, h9]

theorem mem_expand {c' : Char} {f : Char → List Char} {l : List Char}
    (h : c' ∈ expand f l) : ∃ c ∈ l, c' ∈ f c := by
  induction l with
  | nil => exact absurd h (List.not_mem_nil c')
  | cons c rest ih =>
    rcases List.mem_append.mp h with hin | hin
    · exact ⟨c, List.mem_cons_self c rest, hin⟩
    · obtain ⟨c0, hc0, hm⟩ := ih hin
      exact ⟨c0, List.mem_cons_of_mem c hc0, hm⟩

/-- Every character of a replacement output is the original character or one
of the three substitution characters. -/
theorem sanChar_mem_cases (c0 c : Char) (h : c ∈ sanChar c0) :
    c = c0 ∨ c = ' ' ∨ c = '-' ∨ c = '\'' := by
  simp only [sanChar] at h
  split_ifs at h
  · rcases List.mem_pair.mp h with rfl | rfl
    · exact Or.inr (Or.inl rfl)
    · exact Or.inr (Or.inr (Or.inl rfl))
  · rw [List.mem_singleton.mp h]; exact Or.inr (Or.inr (Or.inl rfl))
  · rw [List.mem_singleton.mp h]; exact Or.inr (Or.inr (Or.inl rfl))
  · exact absurd h (List.not_mem_nil c)
  · exact absurd h (List.not_mem_nil c)
  · rw [List.mem_singleton.mp h]; exact Or.inr (Or.inr (Or.inr rfl))
  · exact absurd h (List.not_mem_nil c)
  · exact absurd h (List.not_mem_nil c)
  · rw [List.mem_singleton.mp h]; exact Or.inr (Or.inr (Or.inl rfl))
  · exact Or.inl (List.mem_singleton.mp h)

/-- Replacement output never contains a banned character. -/
theorem sanChar_not_banned (c0 c : Char) (h : c ∈ sanChar c0) :
    bannedChar c = false := by
  simp only [sanChar] at h
  split_ifs at h with h1 h2 h3 h4 h5 h6 h7 h8 h9
  · rcases List.mem_pair.mp h with rfl | rfl <;> decide
  · rw [List.mem_singleton.mp h]; decide
  · rw [List.mem_singleton.mp h]; decide
  · exact absurd h (List.not_mem_nil c)
  · exact absurd h (List.not_mem_nil c)
  · rw [List.mem_singleton.mp h]; decide
  · exact absurd h (List.not_mem_nil c)
  · exact absurd h (List.not_mem_nil c)
  · rw [List.mem_singleton.mp h]; decide
  · rw [List.mem_singleton.mp h]
    simp [bannedChar, h1, h2, h3, h4, h5, h6, h7, h8, h9]

theorem mem_trimRightBy {p : Char → Bool} {l : List Char} {c : Char}
    (h : c ∈ trimRightBy p l) : c ∈ l := by
  induction l with
  | nil => exact absurd h (List.not_mem_nil c)
  | cons a rest ih =>
    simp only [trimRightBy] at h
    split at h
    · exact absurd h (List.not_mem_nil c)
    · rcases List.mem_cons.mp h with rfl | hin
      · exact List.mem_cons_self c rest
      · exact List.mem_cons_of_mem a (ih hin)

theorem mem_collapseAux {c : Char} : ∀ (b : Bool) (l : List Char),
    c ∈ collapseAux b l → c = ' ' ∨ c ∈ l := by
  intro b l
  induction l generalizing b with
  | nil => intro h; exact absurd h (List.not_mem_nil c)
  | cons a rest ih =>
    intro h
    simp only [collapseAux] at h
    split at h
    · split at h
      · rcases ih true h with h' | h'
        · exact Or.inl h'
        · exact Or.inr (List.mem_cons_of_mem a h')
      · rcases List.mem_cons.mp h with rfl | hin
        · exact Or.inl rfl
        · rcases ih true hin with h' | h'
          · exact Or.inl h'
          · exact Or.inr (List.mem_cons_of_mem a h')
    · rcases List.mem_cons.mp h with rfl | hin
      · exact Or.inr (List.mem_cons_self c rest)
      · rcases ih false hin with h' | h'
        · exact Or.inl h'
        · exact Or.inr (List.mem_cons_of_mem a h')

/-- The head of a `dropWhile` result never satisfies the predicate. -/
theorem head_dropWhile_false (p : Char → Bool) (l : List Char) :
    ∀ c, (l.dropWhile p).head? = some c → p c = false := by
  induction l with
  | nil => intro c h; exact Option.noConfusion h
  | cons a rest ih =>
    intro c h
    by_cases hp : p a = true
    · rw [List.dropWhile_cons_of_pos hp] at h
      exact ih c h
    · rw [List.dropWhile_cons_of_neg hp] at h
      rw [Option.some_inj.mp h] at hp
      exact Bool.not_eq_true _ ▸ (Bool.eq_false_iff.mpr hp)

/-- The last element of a right trim never satisfies the predicate. -/
theorem getLast_trimRightBy_false (p : Char → Bool) (l : List Char) :
    ∀ c, (trimRightBy p l).getLast? = some c → p c = false := by
  induction l with
  | nil => intro c h; exact Option.noConfusion h
  | cons a rest ih =>
    intro c h
    simp only [trimRightBy] at h
    split at h
    · exact Option.noConfusion h
    · rename_i hcond
      cases hr : trimRightBy p rest with
      | nil =>
        rw [hr] at h hcond
        have hpa : p a = false := by
          cases hpa : p a with
          | false => rfl
          | true => exact absurd (by simp [hpa]) hcond
        have hca : c = a := by simpa using h.symm
        rw [hca]
        exact hpa
      | cons b t =>
        rw [hr, List.getLast?_cons_cons] at h
        exact ih c (by rw [hr]; exact h)

theorem getLast?_cons_ne_nil {a : Char} {r : List Char} (hr : r ≠ []) :
    (a :: r).getLast? = r.getLast? := by
  cases r with
  | nil => exact absurd rfl hr
  | cons b t => exact List.getLast?_cons_cons

/-- Dropping a prefix either empties the list or preserves its last
element. -/
theorem getLast?_dropWhile (p : Char → Bool) (l : List Char) :
    l.dropWhile p = [] ∨ (l.dropWhile p).getLast? = l.getLast? := by
  induction l with
  | nil => exact Or.inl rfl
  | cons a rest ih =>
    by_cases hp : p a = true
    · rw [List.dropWhile_cons_of_pos hp]
      by_cases hdrop : rest.dropWhile p = []
      · exact Or.inl hdrop
      · have hrest : rest ≠ [] := by
          intro hr
          rw [hr] at hdrop
          exact hdrop rfl
        rcases ih with h | h
        · exact absurd h hdrop
        · exact Or.inr (h.trans (getLast?_cons_ne_nil hrest).symm)
    · rw [List.dropWhile_cons_of_neg hp]
      exact Or.inr rfl

/-- Collapsing preserves a non-whitespace last character. -/
theorem getLast?_collapseAux (l : List Char) (d : Char)
    (hd : isRegexSpace d = false) :
    ∀ b, l.getLast? = some d → (collapseAux b l).getLast? = some d := by
  induction l with
  | nil => intro b h; exact Option.noConfusion h
  | cons a rest ih =>
    intro b h
    cases hrest : rest with
    | nil =>
      subst hrest
      have ha : a = d := by simpa using h
      subst ha
      simp [collapseAux, hd]
    | cons a2 t =>
      subst hrest
      have hlast : (a2 :: t).getLast? = some d := by
        rw [← List.getLast?_cons_cons (a := a)]
        exact h
      have hne1 : collapseAux true (a2 :: t) ≠ [] := fun habs =>
        Option.noConfusion (habs ▸ ih true hlast)
      have hne2 : collapseAux false (a2 :: t) ≠ [] := fun habs =>
        Option.noConfusion (habs ▸ ih false hlast)
      have hstep : collapseAux b (a :: a2 :: t) =
          if isRegexSpace a then
            (if b then collapseAux true (a2 :: t)
             else ' ' :: collapseAux true (a2 :: t))
          else a :: collapseAux false (a2 :: t) := rfl
      rw [hstep]
      by_cases hsp : isRegexSpace a = true
      · rw [if_pos hsp]
        cases b with
        | true =>
          rw [if_pos rfl]
          exact ih true hlast
        | false =>
          rw [if_neg (by decide : ¬((false : Bool) = true))]
          rw [getLast?_cons_ne_nil hne1]
          exact ih true hlast
      · rw [if_neg hsp]
        rw [getLast?_cons_ne_nil hne2]
        exact ih false hlast

/-- A right trim whose input ends in a non-matching character is the
identity. -/
theorem trimRightBy_eq_self (p : Char → Bool) (l : List Char)
    (h : ∀ c, l.getLast? = some c → p c = false) : trimRightBy p l = l := by
  induction l with
  | nil => rfl
  | cons a rest ih =>
    cases hrest : rest with
    | nil =>
      subst hrest
      have hpa : p a = false := h a rfl
      simp [trimRightBy, hpa]
    | cons b t =>
      subst hrest
      have hrec : trimRightBy p (b :: t) = b :: t := by
        apply ih
        intro c hc
        exact h c (by rw [List.getLast?_cons_cons]; exact hc)
      have hcond : (trimRightBy p (b :: t) = [] && p a) = false := by
        rw [hrec]
        simp
      have hstep : trimRightBy p (a :: b :: t) =
          if trimRightBy p (b :: t) = [] && p a then []
          else a :: trimRightBy p (b :: t) := rfl
      rw [hstep, hcond, hrec]
      simp

/-- ASCII plus Go whitespace minus control characters pins the space
character. -/
theorem goSpace_ascii_is_space (c : Char) (h1 : isGoSpace c = true)
    (h2 : c.toNat < 0x80) (h3 : isGoControl c = false) : c = ' ' := by
  simp only [isGoSpace, Bool.or_eq_true, decide_eq_true_eq,
    Bool.and_eq_true] at h1
  rcases h1 with h | h | h | h | h | h | h | h | h | ⟨ha, hb⟩ | h | h | h | h | h
  · exact h
  all_goals first
    | (subst h; exact absurd h3 (by decide))
    | (subst h; exact absurd h2 (by decide))
    | (exfalso; omega)

/-- Go regex whitespace is Go Unicode whitespace. -/
theorem regexSpace_goSpace (c : Char) (h : isRegexSpace c = true) :
    isGoSpace c = true := by
  simp only [isRegexSpace, Bool.or_eq_true, decide_eq_true_eq] at h
  rcases h with h | h | h | h | h <;> subst h <;> decide

/-- Assembly: collapsing, left-trimming and right-trimming a list whose
characters are clean and whose last character is neither space nor period
yields a name with the claimed shape. -/
theorem sanitize_tail_ok (l3 : List Char)
    (hban : ∀ c ∈ l3, bannedChar c = false)
    (hctl : ∀ c ∈ l3, isGoControl c = false)
    (hsp : ∀ c ∈ l3, isGoSpace c = true → c = ' ')
    (hlast : ∀ c, l3.getLast? = some c → (c = ' ' || c = '.') = false) :
    sanitizedClaimOK
      (trimRightBy isGoSpace ((collapseAux false l3).dropWhile isGoSpace)) =
      true := by
  have hl4chars : ∀ c ∈ collapseAux false l3,
      (bannedChar c = false ∧ isGoControl c = false) ∧
        (isGoSpace c = true → c = ' ') := by
    intro c hc
    rcases mem_collapseAux false l3 hc with rfl | hin
    · exact ⟨⟨by decide, by decide⟩, fun _ => rfl⟩
    · exact ⟨⟨hban c hin, hctl c hin⟩, hsp c hin⟩
  by_cases h3 : l3 = []
  · subst h3
    decide
  · obtain ⟨d, hd⟩ : ∃ d, l3.getLast? = some d := by
      cases hg : l3.getLast? with
      | none => exact absurd (List.getLast?_eq_none_iff.mp hg) h3
      | some d => exact ⟨d, rfl⟩
    have hdmem : d ∈ l3 := List.mem_of_mem_getLast? hd
    have hdlast := hlast d hd
    have hd1 : d ≠ ' ' := by
      intro hEq
      rw [hEq] at hdlast
      exact absurd hdlast (by decide)
    have hd2 : d ≠ '.' := by
      intro hEq
      rw [hEq] at hdlast
      exact absurd hdlast (by decide)
    have hdgo : isGoSpace d = false := by
      cases hgo : isGoSpace d with
      | false => rfl
      | true => exact absurd (hsp d hdmem hgo) hd1
    have hdreg : isRegexSpace d = false := by
      cases hrg : isRegexSpace d with
      | false => rfl
      | true => rw [regexSpace_goSpace d hrg] at hdgo; exact Bool.noConfusion hdgo
    have hl4last : (collapseAux false l3).getLast? = some d :=
      getLast?_collapseAux l3 d hdreg false hd
    rcases getLast?_dropWhile isGoSpace (collapseAux false l3) with hnil | hlastp
    · rw [hnil]
      decide
    · have hlastp' : ((collapseAux false l3).dropWhile isGoSpace).getLast? =
          some d := hlastp.trans hl4last
      have htrim : trimRightBy isGoSpace
          ((collapseAux false l3).dropWhile isGoSpace) =
          (collapseAux false l3).dropWhile isGoSpace := by
        apply trimRightBy_eq_self
        intro c hc
        rw [hlastp'] at hc
        rw [← Option.some_inj.mp hc]
        exact hdgo
      rw [htrim]
      have hmem5 : ∀ c ∈ (collapseAux false l3).dropWhile isGoSpace,
          c ∈ collapseAux false l3 :=
        fun c hc => (List.dropWhile_sublist isGoSpace).subset hc
      simp only [sanitizedClaimOK, Bool.and_eq_true, List.all_eq_true]
      refine ⟨⟨?_, ?_⟩, ?_⟩
      · intro c hc
        have h4 := hl4chars c (hmem5 c hc)
        simp [h4.1.1, h4.1.2]
      · cases hh : ((collapseAux false l3).dropWhile isGoSpace).head? with
        | none => rfl
        | some c =>
          have hngo := head_dropWhile_false isGoSpace (collapseAux false l3) c hh
          simp only [Option.all_some, bne_iff_ne, ne_eq, decide_eq_true_eq]
          intro hEq
          rw [hEq] at hngo
          exact absurd hngo (by decide)
      · rw [hlastp']
        simp [hd1, hd2]

/-- Claim C6, counterexample: for the input `a.` followed by a no-break
space (U+00A0, Go whitespace but neither ASCII nor a control character), the
sanitizer output is `a.` — it ends in a period, because the trailing-trim of
spaces and periods runs before the final Unicode `TrimSpace`. -/
theorem sanitize_claim_counterexample :
    sanitizedClaimOK (sanitizeFilename ['a', '.', Char.ofNat 0xA0]) = false := by
  decide

/-- Claim C6, amended: for every input none of whose Go-whitespace characters
is non-ASCII, the sanitizer output contains no banned character `: / \ * ? "
ᐸ ᐳ |`, no control character, has no leading or trailing space, and does not
end in a period.  (Without the whitespace restriction all conjuncts except
the trailing period still hold.) -/
theorem sanitize_output_ok (l : List Char)
    (h : ∀ c ∈ l, isGoSpace c = true → c.toNat < 0x80) :
    sanitizedClaimOK (sanitizeFilename l) = true := by
  have hs : sanitizeFilename l =
      trimRightBy isGoSpace
        ((collapseAux false
          (trimRightBy (fun c => c = ' ' || c = '.')
            ((expand sanChar l).filter (fun c => !isGoControl c)))).dropWhile
          isGoSpace) := by
    rw [← applyReplacements_eq_expand]
    rfl
  rw [hs]
  apply sanitize_tail_ok
  · intro c hc
    have hc2 := mem_trimRightBy hc
    obtain ⟨c0, _, hm⟩ := mem_expand (List.mem_filter.mp hc2).1
    exact sanChar_not_banned c0 c hm
  · intro c hc
    have hc2 := mem_trimRightBy hc
    simpa using (List.mem_filter.mp hc2).2
  · intro c hc hgo
    have hc2 := mem_trimRightBy hc
    obtain ⟨hmem1, hfl⟩ := List.mem_filter.mp hc2
    have hcc : isGoControl c = false := by simpa using hfl
    obtain ⟨c0, hc0, hm⟩ := mem_expand hmem1
    rcases sanChar_mem_cases c0 c hm with rfl | rfl | rfl | rfl
    · exact goSpace_ascii_is_space c hgo (h c hc0 hgo) hcc
    · rfl
    · exact absurd hgo (by decide)
    · exact absurd hgo (by decide)
  · intro c hc
    exact getLast_trimRightBy_false _ _ c hc

/-- Claim C6, witness for the amended theorem on a concrete messy ASCII
title. -/
theorem sanitize_output_ok_witness :
    (∀ c ∈ (" A:B*?<>|.  " : String).data, isGoSpace c = true → c.toNat < 0x80) ∧
    sanitizedClaimOK (sanitizeFilename (" A:B*?<>|.  " : String).data) = true :=
  ⟨by decide, sanitize_output_ok (" A:B*?<>|.  " : String).data (by decide)⟩

end PlexRenamer
